import Mathlib

set_option maxHeartbeats 1000000

/-!
Shallow embedding of the aussiebb-carbon client (src/aussiebb_carbon.py).
Covered here: the per-key TTL file cache (cache_store, cache_get) with its
piggy-backed login-expiry gate, the login state machine (do_login,
do_logout), normalization of nested service records (process_services,
mirroring Carbon._process_services over pandas), the tag-filtered fetch and
aggregation (get_services_by_tag, get_services_by_tags) and the
secondary-attribute lookups (get_service_by_avc, get_service_by_loc_id).
Clock readings are passed explicitly as a Nat argument named now; HTTP
responses come from an explicit environment record, so every function is a
pure state transformer.
-/

/-- JSON-like field values appearing in service records. -/
inductive Value where
  | null
  | nat (n : Nat)
  | str (s : String)
  | obj (fields : List (String × Value))

/-- One normalized service record: an ordered list of named fields, the
row form that pandas DataFrame rows take after to_dict with orient
records. -/
abbrev Row := List (String × Value)

/-- Value stored under a field name: per-row pandas column access. -/
def lookupField : Row → String → Option Value
  | [], _ => none
  | (k, v) :: r, x => if k = x then some v else lookupField r x

/-- Field names of a row, in order. -/
def keysOf (r : Row) : List String := r.map Prod.fst

/-- Whether a row has a column of the given name. -/
def hasKey : Row → String → Bool
  | [], _ => false
  | (k, _) :: r, x => if k = x then true else hasKey r x

/-- Dropping a column (pandas drop with axis 1), restricted to one row. -/
def removeKey : Row → String → Row
  | [], _ => []
  | (k, v) :: r, x => if k = x then removeKey r x else (k, v) :: removeKey r x

/-- Replace every field of the given name in place. -/
def overwriteField : Row → String → Value → Row
  | [], _, _ => []
  | (k, w) :: r, x, v =>
    if k = x then (x, v) :: overwriteField r x v else (k, w) :: overwriteField r x v

/-- Pandas assign semantics on one row: overwrite an existing column in
place, append a new one at the end. -/
def setField (r : Row) (x : String) (v : Value) : Row :=
  if hasKey r x then overwriteField r x v else r ++ [(x, v)]

/-- Fields of a nested object cell; a non-object cell contributes no
fields. -/
def objFields : Value → Row
  | .obj fields => fields
  | _ => []

/-- Cell of a named column in one row, null when the row misses it: the
NaN fill pandas applies to absent keys. -/
def colOf (r : Row) (k : String) : Value := (lookupField r k).getD .null

/-- Column names produced by apply over a column of objects: the keys
contributed by all rows. -/
def unionKeys : List Row → List String
  | [] => []
  | r :: rs => keysOf r ++ unionKeys rs

/-- Pandas assign of a prefixed expansion on one row: one column per key k
in ks, named pre ++ k, holding the src field k (null when absent). -/
def assignRow (r : Row) (ks : List String) (src : Row) (pre : String) : Row :=
  ks.foldl (fun acc k => setField acc (pre ++ k) (colOf src k)) r

/-- The parts of a requests response that the client reads. -/
structure Response where
  status_code : Nat
  reason : String
  expiresIn : Nat
  accessToken : String
deriving DecidableEq

/-- Values held by cache entries: the login expiry instant, a pickled
login response, a normalized services table, or a session object. -/
inductive CVal where
  | num (n : Nat)
  | resp (r : Response)
  | table (t : List Row)
  | session

/-- One persisted cache entry: write timestamp plus value. The value is an
Option because Python None is itself storable. -/
structure CEntry where
  time : Nat
  value : Option CVal

/-- The persisted store: one entry per key (each key maps to its own
cache file carbon_key.cache holding that entry). -/
abbrev Cache := List (String × CEntry)

/-- Entry stored under a key, none when the cache file does not exist. -/
def lookupEntry : Cache → String → Option CEntry
  | [], _ => none
  | (k, e) :: c, key => if k = key then some e else lookupEntry c key

/-- Create or replace the entry stored under a key. -/
def setEntry : Cache → String → CEntry → Cache
  | [], key, e => [(key, e)]
  | (k, old) :: c, key, e =>
    if k = key then (key, e) :: c else (k, old) :: setEntry c key e

/-- Carbon.cache_store: persist value under key with the current
timestamp, superseding any previous entry. -/
def cache_store (cache : Cache) (key : String) (value : Option CVal) (now : Nat) : Cache :=
  setEntry cache key { time := now, value := value }

/-- The nested call cache_get of login_expiry with default 0 made inside
cache_get: the stored marker value when present and not None, else 0. The
marker key bypasses both the auth gate and the max-age filter. -/
def getLoginExpiry (cache : Cache) : Option CVal :=
  match lookupEntry cache "login_expiry" with
  | some e =>
    match e.value with
    | some v => some v
    | none => some (.num 0)
  | none => some (.num 0)

/-- Numeric reading of a cached value, as the login-expiry comparison
interprets it. -/
def numOf : Option CVal → Nat
  | some (.num n) => n
  | _ => 0

/-- Carbon.cache_get: return the stored value if the entry exists, the
login-expiry gate passes (skipped for the marker key itself), the max-age
filter passes, and the stored value is not None; otherwise the default. -/
def cache_get (cache : Cache) (key : String) (defaultValue : Option CVal)
    (maxAge : Option Nat) (now : Nat) : Option CVal :=
  let value : Option CVal :=
    match lookupEntry cache key with
    | none => none
    | some e =>
      if key = "login_expiry" ∨ now < numOf (getLoginExpiry cache) then
        match maxAge with
        | none => e.value
        | some t => if now < e.time + t then e.value else defaultValue
      else none
  match value with
  | none => defaultValue
  | some v => some v

/-- The mutable client state: the persisted cache plus the in-memory
session fields of the Carbon object. -/
structure CarbonState where
  cache : Cache
  login_response : Option Response
  login_expiry : Nat

/-- Errors the client raises: ConnectionError carrying HTTP status and
reason, and the bare IndexError from indexing an empty match list. -/
inductive ApiError where
  | connectionError (status_code : Nat) (reason : String)
  | indexError

/-- Result of one Carbon.do_login call: the state after the call, the
returned login response or the raised error, and whether the remote login
endpoint was actually invoked. -/
structure LoginOutcome where
  state : CarbonState
  result : Except ApiError (Option Response)
  requested : Bool

/-- Carbon.do_login: posts credentials only when no login response is held
and the expiry has passed; on HTTP 200 stores the response, the new expiry
and the session in the cache; on any other status raises ConnectionError
with the status code and reason. The response argument is what the login
endpoint would return if invoked. -/
def do_login (st : CarbonState) (now : Nat) (response : Response) : LoginOutcome :=
  if st.login_response = none ∧ st.login_expiry < now then
    if response.status_code = 200 then
      let newExpiry := now + response.expiresIn
      let c1 := cache_store st.cache "login_response" (some (.resp response)) now
      let c2 := cache_store c1 "login_expiry" (some (.num newExpiry)) now
      let c3 := cache_store c2 "session_data" (some .session) now
      { state := { cache := c3, login_response := some response, login_expiry := newExpiry },
        result := .ok (some response), requested := true }
    else
      { state := st,
        result := .error (.connectionError response.status_code response.reason),
        requested := true }
  else
    { state := st, result := .ok st.login_response, requested := false }

/-- Carbon.do_logout: issues the delete request (its response is the
argument and is returned untouched, whatever its status) and resets the
in-memory fields login_response and login_expiry. -/
def do_logout (st : CarbonState) (response : Response) : CarbonState × Response :=
  ({ cache := st.cache, login_response := none, login_expiry := 0 }, response)

/-- Remote behavior visible to the resource operations: the login
response, the full service list response, and per-tag filtered
responses. -/
structure Env where
  loginResponse : Response
  servicesStatus : Nat
  servicesReason : String
  servicesData : List Row
  tagStatus : String → Nat
  tagReason : String → String
  tagData : String → List Row

/-- The self.do_login call made by the resource operations, threaded
through the state; a raised ConnectionError propagates. -/
def runLogin (env : Env) (st : CarbonState) (now : Nat) : Except ApiError CarbonState :=
  let o := do_login st now env.loginResponse
  match o.result with
  | .error e => .error e
  | .ok _ => .ok o.state

/-- A cached value read back as a services table. -/
def asTable : Option CVal → Option (List Row)
  | some (.table t) => some t
  | _ => none

/-- Column names of the expanded network column over the whole frame. -/
def netKeysOf (rs : List Row) : List String :=
  unionKeys (rs.map (fun r => objFields (colOf r "network")))

/-- First normalization step on one row: expand the network object into
network_ prefixed columns, then drop the network column. -/
def psStep1 (ks : List String) (r : Row) : Row :=
  removeKey (assignRow r ks (objFields (colOf r "network")) "network_") "network"

/-- Second normalization step on one row: expand the network_headend
object into headend_ prefixed columns, then drop network_headend. -/
def psStep2 (ks : List String) (r : Row) : Row :=
  removeKey (assignRow r ks (objFields (colOf r "network_headend")) "headend_") "network_headend"

/-- Column names of the expanded network_headend column over the frame
produced by the first step. -/
def heKeysOf (rs : List Row) : List String :=
  unionKeys ((rs.map (psStep1 (netKeysOf rs))).map
    (fun row => objFields (colOf row "network_headend")))

/-- Carbon._process_services: flatten the network sub-object of every
record into network_ prefixed fields, and when any record then carries a
network_headend column, flatten it into headend_ prefixed fields. -/
def process_services (rs : List Row) : List Row :=
  if (rs.map (psStep1 (netKeysOf rs))).any (fun row => hasKey row "network_headend") then
    (rs.map (psStep1 (netKeysOf rs))).map (psStep2 (heKeysOf rs))
  else rs.map (psStep1 (netKeysOf rs))

/-- Carbon.get_all_services: serve the cached services table when fresh
and use_cache holds, else log in, fetch, normalize and cache. -/
def get_all_services (env : Env) (st : CarbonState) (use_cache : Bool)
    (maxAge now : Nat) : Except ApiError (CarbonState × List Row) :=
  match asTable (cache_get st.cache "services" none (some maxAge) now), use_cache with
  | some t, true => .ok (st, t)
  | _, _ =>
    match runLogin env st now with
    | .error e => .error e
    | .ok st1 =>
      if env.servicesStatus = 200 then
        let processed := process_services env.servicesData
        .ok (cache_store st1.cache "services" (some (.table processed)) now
              |> fun c => { st1 with cache := c }, processed)
      else .error (.connectionError env.servicesStatus env.servicesReason)

/-- Carbon.get_services_by_tag: serve the cached per-tag table when fresh
and use_cache holds, else log in and fetch with the tag filter; a
non-empty result is normalized and cached, an empty result stores nothing
and the pre-fetch value (none on a miss) is returned. The Bool reports
whether a remote fetch happened. -/
def get_services_by_tag (env : Env) (st : CarbonState) (tag : String)
    (use_cache : Bool) (maxAge now : Nat) :
    Except ApiError (CarbonState × Option (List Row) × Bool) :=
  let cached := asTable (cache_get st.cache ("services_tag_" ++ tag) none (some maxAge) now)
  match cached, use_cache with
  | some t, true => .ok (st, some t, false)
  | _, _ =>
    match runLogin env st now with
    | .error e => .error e
    | .ok st1 =>
      if env.tagStatus tag = 200 then
        if (env.tagData tag).length > 0 then
          let processed := process_services (env.tagData tag)
          .ok ({ st1 with
                  cache := cache_store st1.cache ("services_tag_" ++ tag)
                            (some (.table processed)) now },
                some processed, true)
        else .ok (st1, cached, true)
      else .error (.connectionError (env.tagStatus tag) (env.tagReason tag))

/-- The for loop inside get_services_by_tags: one get_services_by_tag call
per tag in order, concatenating the non-None results. -/
def goTags (env : Env) : CarbonState → List String → Bool → Nat → Nat →
    Except ApiError (CarbonState × List Row)
  | st, [], _, _, _ => .ok (st, [])
  | st, tag :: rest, uc, ma, now =>
    match get_services_by_tag env st tag uc ma now with
    | .error e => .error e
    | .ok (st1, res, _) =>
      match goTags env st1 rest uc ma now with
      | .error e => .error e
      | .ok (st2, tailRows) =>
        .ok (st2, (match res with | some t => t | none => []) ++ tailRows)

/-- Carbon.get_services_by_tags: serve the cached aggregate when fresh and
use_cache holds, else run the per-tag loop; a non-empty concatenation is
cached and returned, an empty one leaves the pre-fetch value (none on a
miss). -/
def get_services_by_tags (env : Env) (st : CarbonState) (tags : List String)
    (use_cache : Bool) (maxAge now : Nat) :
    Except ApiError (CarbonState × Option (List Row)) :=
  let cache_name := "services_tags_" ++ String.intercalate "_" tags
  let cached := asTable (cache_get st.cache cache_name none (some maxAge) now)
  match cached, use_cache with
  | some t, true => .ok (st, some t)
  | _, _ =>
    match goTags env st tags use_cache maxAge now with
    | .error e => .error e
    | .ok (st1, rows) =>
      if rows.length ≠ 0 then
        .ok ({ st1 with cache := cache_store st1.cache cache_name (some (.table rows)) now },
              some rows)
      else .ok (st1, cached)

/-- The per-tag result sequence of get_services_by_tag calls in tag order,
threading the state exactly as the loop does; used to state what the
aggregate equals. -/
def perTagResults (env : Env) : CarbonState → List String → Bool → Nat → Nat →
    Except ApiError (CarbonState × List (Option (List Row)))
  | st, [], _, _, _ => .ok (st, [])
  | st, tag :: rest, uc, ma, now =>
    match get_services_by_tag env st tag uc ma now with
    | .error e => .error e
    | .ok (st1, res, _) =>
      match perTagResults env st1 rest uc ma now with
      | .error e => .error e
      | .ok (st2, tailRes) => .ok (st2, res :: tailRes)

/-- Python str.upper on the character list of a string (the embedding of
pandas str.upper, written as structural recursion so it computes). -/
def upperChars : List Char → List Char
  | [] => []
  | c :: cs => c.toUpper :: upperChars cs

/-- Upper-cased string, character by character. -/
def upperStr (s : String) : String := String.mk (upperChars s.data)

/-- The boolean mask built by the secondary-attribute lookups: the row
field named attr, read as a string, upper-cased, compared for equality
with the upper-cased query. Rows missing the attribute (NaN) never
match. -/
def upperMatch (attr : String) (q : String) (r : Row) : Bool :=
  match lookupField r attr with
  | some (.str s) => upperStr s == upperStr q
  | _ => false

/-- Carbon.get_service_by_avc: filter the full services table on
service_identifier upper-equality and take element 0 of the match list;
an empty match list raises IndexError. -/
def get_service_by_avc (env : Env) (st : CarbonState) (avc_id : String)
    (use_cache : Bool) (now : Nat) : Except ApiError Row :=
  match get_all_services env st use_cache 300 now with
  | .error e => .error e
  | .ok (_, services) =>
    match services.filter (upperMatch "service_identifier" avc_id) with
    | [] => .error .indexError
    | r :: _ => .ok r

/-- Carbon.get_service_by_loc_id: filter the full services table on
location_id upper-equality and take element 0 of the match list; an empty
match list raises IndexError. -/
def get_service_by_loc_id (env : Env) (st : CarbonState) (loc_id : String)
    (use_cache : Bool) (now : Nat) : Except ApiError Row :=
  match get_all_services env st use_cache 300 now with
  | .error e => .error e
  | .ok (_, services) =>
    match services.filter (upperMatch "location_id" loc_id) with
    | [] => .error .indexError
    | r :: _ => .ok r

/-! Basic cache lemmas. -/

theorem lookupEntry_setEntry_self (c : Cache) (key : String) (e : CEntry) :
    lookupEntry (setEntry c key e) key = some e := by
  induction c with
  | nil => simp [setEntry, lookupEntry]
  | cons p c ih =>
    obtain ⟨k, old⟩ := p
    by_cases h : k = key <;> simp [setEntry, lookupEntry, h, ih]

theorem lookupEntry_setEntry_ne (c : Cache) (key k2 : String) (e : CEntry)
    (h : k2 ≠ key) : lookupEntry (setEntry c key e) k2 = lookupEntry c k2 := by
  induction c with
  | nil => simp [setEntry, lookupEntry, Ne.symm h]
  | cons p c ih =>
    obtain ⟨k, old⟩ := p
    by_cases hk : k = key
    · subst hk
      simp [setEntry, lookupEntry, Ne.symm h]
    · simp [setEntry, lookupEntry, hk, ih]

/-- C1: for every key other than the login_expiry marker, once the stored
marker indicates a lapsed session (its instant is not greater than now),
cache_get returns the default, whatever the state and freshness of the
entry under that key. -/
theorem cache_get_auth_lapsed_returns_default
    (cache : Cache) (key : String) (d : Option CVal) (maxAge : Option Nat)
    (now ex : Nat)
    (hk : key ≠ "login_expiry")
    (hex : getLoginExpiry cache = some (.num ex))
    (hlapsed : ex ≤ now) :
    cache_get cache key d maxAge now = d := by
  have hgate : ¬ (key = "login_expiry" ∨ now < numOf (getLoginExpiry cache)) := by
    rw [hex]
    simp only [numOf]
    push_neg
    exact ⟨hk, by omega⟩
  simp only [cache_get]
  cases hEnt : lookupEntry cache key with
  | none => simp
  | some e => simp [hgate]

/-- Concrete run of the C1 theorem: a services entry written at time 9 and
read with no max age at time 10 is refused because the marker reads 10. -/
theorem cache_get_auth_lapsed_witness :
    ("services" : String) ≠ "login_expiry"
    ∧ getLoginExpiry [("services", ⟨9, some (.table [])⟩),
        ("login_expiry", ⟨0, some (.num 10)⟩)] = some (.num 10)
    ∧ (10 : Nat) ≤ 10
    ∧ cache_get [("services", ⟨9, some (.table [])⟩),
        ("login_expiry", ⟨0, some (.num 10)⟩)] "services" (some (.num 42)) none 10
        = some (.num 42) :=
  ⟨by decide, rfl, by decide,
    cache_get_auth_lapsed_returns_default _ "services" (some (.num 42)) none 10 10
      (by decide) rfl (by decide)⟩

/-- C10: a stored Python None is indistinguishable from a cache miss:
directly after cache_store of None under any key, cache_get of that key
returns the default, for every default, max age and clock reading. -/
theorem cache_store_none_roundtrip_default
    (cache : Cache) (key : String) (d : Option CVal) (maxAge : Option Nat)
    (storeTime now : Nat) :
    cache_get (cache_store cache key none storeTime) key d maxAge now = d := by
  simp only [cache_get, cache_store, lookupEntry_setEntry_self]
  by_cases hgate : key = "login_expiry"
      ∨ now < numOf (getLoginExpiry (setEntry cache key ⟨storeTime, none⟩))
  · cases maxAge with
    | none => simp [hgate]
    | some t =>
      by_cases hfresh : now < storeTime + t
      · simp [hgate, hfresh]
      · simp only [if_pos hgate, if_neg hfresh]
        cases d <;> simp
  · simp [hgate]

/-- C3 (amended): with the entry present, holding a non-None value, and
the login gate passing, cache_get with a max age serves the stored value
exactly when written_at + max_age is strictly greater than now, and the
default otherwise; in particular the exact boundary returns the
default. -/
theorem cache_get_ttl_strict
    (cache : Cache) (key : String) (d : Option CVal) (T now : Nat)
    (ent : CEntry) (v : CVal)
    (hEnt : lookupEntry cache key = some ent)
    (hv : ent.value = some v)
    (hgate : key = "login_expiry" ∨ now < numOf (getLoginExpiry cache)) :
    cache_get cache key d (some T) now = if now < ent.time + T then some v else d := by
  simp only [cache_get, hEnt, if_pos hgate]
  by_cases hfresh : now < ent.time + T
  · simp [hfresh, hv]
  · simp only [if_neg hfresh]
    cases d <;> simp

/-- Concrete run of the amended C3 theorem: an entry written at 10 read
with max age 5 at time 14 is still served. -/
theorem cache_get_ttl_strict_witness :
    lookupEntry [("services", ⟨10, some (.num 7)⟩),
        ("login_expiry", ⟨0, some (.num 100)⟩)] "services" = some ⟨10, some (.num 7)⟩
    ∧ (⟨10, some (.num 7)⟩ : CEntry).value = some (.num 7)
    ∧ (14 : Nat) < numOf (getLoginExpiry [("services", ⟨10, some (.num 7)⟩),
        ("login_expiry", ⟨0, some (.num 100)⟩)])
    ∧ cache_get [("services", ⟨10, some (.num 7)⟩),
        ("login_expiry", ⟨0, some (.num 100)⟩)] "services" (some (.num 0)) (some 5) 14
        = if (14 : Nat) < 10 + 5 then some (.num 7) else some (.num 0) :=
  ⟨rfl, rfl, by decide,
    cache_get_ttl_strict _ "services" (some (.num 0)) 5 14 ⟨10, some (.num 7)⟩ (.num 7)
      rfl rfl (Or.inr (by decide))⟩

/-- C3 counterexample: at the exact boundary written_at + max_age = now
(here 10 + 5 = 15, so now minus written_at equals max_age and the section
3 inclusive rule would still serve the entry), the code returns the
default instead of the stored value, with the session valid. -/
theorem cache_get_boundary_counterexample :
    lookupEntry [("services", ⟨10, some (.num 7)⟩),
        ("login_expiry", ⟨0, some (.num 100)⟩)] "services" = some ⟨10, some (.num 7)⟩
    ∧ (15 : Nat) < 100
    ∧ 10 + 5 = 15
    ∧ 15 - 10 ≤ 5
    ∧ cache_get [("services", ⟨10, some (.num 7)⟩),
        ("login_expiry", ⟨0, some (.num 100)⟩)] "services" (some (.num 0)) (some 5) 15
        = some (.num 0)
    ∧ some (CVal.num 0) ≠ some (CVal.num 7) := by
  refine ⟨rfl, by decide, by decide, by decide, rfl, ?_⟩
  simp

/-- Shared concrete responses for the login and logout claims. -/
def respHeld : Response :=
  { status_code := 200, reason := "OK", expiresIn := 60, accessToken := "tok1" }

def respRetry : Response :=
  { status_code := 200, reason := "OK", expiresIn := 60, accessToken := "tok2" }

def respFail : Response :=
  { status_code := 503, reason := "Service Unavailable", expiresIn := 0, accessToken := "" }

/-- A state still holding a login response whose expiry instant (5) has
already passed at the call time used below (10). -/
def stExpired : CarbonState :=
  { cache := [], login_response := some respHeld, login_expiry := 5 }

/-- C2 (failing input): with a held login response whose expiry has
passed, do_login neither contacts the login endpoint nor refreshes
anything; it returns the stale held response, contradicting the required
re-authentication whenever now is past the expiry. -/
theorem do_login_stale_after_expiry :
    stExpired.login_expiry < 10
    ∧ do_login stExpired 10 respRetry =
        { state := stExpired, result := .ok (some respHeld), requested := false } :=
  ⟨by decide, rfl⟩

/-- C5: when do_login actually performs a login request (no held response
and expiry passed) and the response status is not 200, it raises
ConnectionError carrying the status code and reason, and the state, both
in-memory fields and the persisted cache, is exactly the one before the
call, still logged out. -/
theorem do_login_failure_raises_and_preserves_state
    (st : CarbonState) (now : Nat) (response : Response)
    (hnone : st.login_response = none)
    (hexp : st.login_expiry < now)
    (hstatus : response.status_code ≠ 200) :
    do_login st now response =
      { state := st,
        result := .error (.connectionError response.status_code response.reason),
        requested := true } := by
  simp [do_login, hnone, hexp, hstatus]

/-- Concrete run of the C5 theorem on a 503 login response. -/
theorem do_login_failure_witness :
    ({ cache := [], login_response := none, login_expiry := 0 } :
        CarbonState).login_response = none
    ∧ ({ cache := [], login_response := none, login_expiry := 0 } :
        CarbonState).login_expiry < 5
    ∧ respFail.status_code ≠ 200
    ∧ do_login { cache := [], login_response := none, login_expiry := 0 } 5 respFail =
        { state := { cache := [], login_response := none, login_expiry := 0 },
          result := .error (.connectionError 503 "Service Unavailable"),
          requested := true } :=
  ⟨rfl, by decide, by decide,
    do_login_failure_raises_and_preserves_state
      { cache := [], login_response := none, login_expiry := 0 } 5 respFail rfl
      (by decide) (by decide)⟩

/-- C4 (amended): do_logout issues the remote logout request (whose
response is passed through untouched, whatever its status, so a failed
remote logout changes nothing) and unconditionally resets the in-memory
login_response and login_expiry, but leaves every persisted cache entry,
including the stored login response and expiry marker, unchanged. -/
theorem do_logout_clears_memory_not_cache (st : CarbonState) (response : Response) :
    do_logout st response =
      ({ cache := st.cache, login_response := none, login_expiry := 0 }, response) := rfl

/-- A logged-in state whose session is also persisted in the cache. -/
def stLogged : CarbonState :=
  { cache := [("login_response", ⟨3, some (.resp respHeld)⟩),
              ("login_expiry", ⟨3, some (.num 99)⟩)],
    login_response := some respHeld, login_expiry := 99 }

/-- C4 counterexample: after do_logout (here with a failed 503 logout
response, though the status is never consulted) the persisted cache still
holds the old login response and the expiry marker still reads 99, not a
logged-out value, even though the in-memory fields were cleared. -/
theorem do_logout_persisted_state_counterexample :
    (do_logout stLogged respFail).1.cache = stLogged.cache
    ∧ lookupEntry (do_logout stLogged respFail).1.cache "login_response"
        = some ⟨3, some (.resp respHeld)⟩
    ∧ getLoginExpiry (do_logout stLogged respFail).1.cache = some (.num 99)
    ∧ some (CVal.num 99) ≠ some (CVal.num 0)
    ∧ (do_logout stLogged respFail).1.login_response = none
    ∧ (do_logout stLogged respFail).2 = respFail := by
  refine ⟨rfl, rfl, rfl, ?_, rfl, rfl⟩
  simp

/-! Row-level lemmas for the normalization proofs. -/

theorem string_append_cancel (p a b : String) (h : p ++ a = p ++ b) : a = b := by
  have hd := congrArg String.data h
  rw [String.data_append, String.data_append] at hd
  exact String.ext (List.append_cancel_left hd)

theorem append_ne_of_head (p y a : String) (c d : Char) (tp ty : List Char)
    (hp : p.data = c :: tp) (hy : y.data = d :: ty) (hcd : c ≠ d) : p ++ a ≠ y := by
  intro h
  have hd := congrArg String.data h
  rw [String.data_append, hp, hy, List.cons_append] at hd
  exact hcd (List.head_eq_of_cons_eq hd)

theorem ne_append_of_short (p a x : String) (h : x.length < p.length) : x ≠ p ++ a := by
  intro he
  have hl := congrArg String.length he
  rw [String.length_append] at hl
  omega

theorem lookupField_append (r1 r2 : Row) (x : String) :
    lookupField (r1 ++ r2) x =
      match lookupField r1 x with
      | some v => some v
      | none => lookupField r2 x := by
  induction r1 with
  | nil => simp [lookupField]
  | cons p r ih =>
    obtain ⟨k, w⟩ := p
    by_cases hk : k = x <;> simp [lookupField, hk, ih]

theorem lookupField_none_of_hasKey_false (r : Row) (x : String)
    (h : hasKey r x = false) : lookupField r x = none := by
  induction r with
  | nil => rfl
  | cons p r ih =>
    obtain ⟨k, w⟩ := p
    by_cases hk : k = x
    · simp [hasKey, hk] at h
    · rw [show lookupField ((k, w) :: r) x = lookupField r x by simp [lookupField, hk]]
      exact ih (by simpa [hasKey, hk] using h)

theorem hasKey_of_lookupField (r : Row) (x : String) (v : Value)
    (h : lookupField r x = some v) : hasKey r x = true := by
  induction r with
  | nil => simp [lookupField] at h
  | cons p r ih =>
    obtain ⟨k, w⟩ := p
    by_cases hk : k = x
    · simp [hasKey, hk]
    · simp only [lookupField, if_neg hk] at h
      simp [hasKey, hk, ih h]

theorem lookupField_removeKey_self (r : Row) (x : String) :
    lookupField (removeKey r x) x = none := by
  induction r with
  | nil => rfl
  | cons p r ih =>
    obtain ⟨k, w⟩ := p
    by_cases hk : k = x <;> simp [removeKey, lookupField, hk, ih]

theorem lookupField_removeKey_ne (r : Row) (y x : String) (h : x ≠ y) :
    lookupField (removeKey r y) x = lookupField r x := by
  induction r with
  | nil => rfl
  | cons p r ih =>
    obtain ⟨k, w⟩ := p
    by_cases hk : k = y
    · subst hk
      simp [removeKey, lookupField, Ne.symm h, ih]
    · by_cases hkx : k = x <;> simp [removeKey, lookupField, hk, hkx, ih, h]

theorem lookupField_overwriteField_ne (r : Row) (y : String) (v : Value) (x : String)
    (h : x ≠ y) : lookupField (overwriteField r y v) x = lookupField r x := by
  induction r with
  | nil => rfl
  | cons p r ih =>
    obtain ⟨k, w⟩ := p
    by_cases hk : k = y
    · subst hk
      simp [overwriteField, lookupField, Ne.symm h, ih]
    · by_cases hkx : k = x <;> simp [overwriteField, lookupField, hk, hkx, ih, h]

theorem lookupField_overwriteField_self (r : Row) (y : String) (v : Value)
    (h : hasKey r y = true) : lookupField (overwriteField r y v) y = some v := by
  induction r with
  | nil => simp [hasKey] at h
  | cons p r ih =>
    obtain ⟨k, w⟩ := p
    by_cases hk : k = y
    · subst hk
      simp [overwriteField, lookupField]
    · have h2 : hasKey r y = true := by simpa [hasKey, hk] using h
      simp [overwriteField, lookupField, hk, ih h2]

theorem lookupField_setField (r : Row) (y : String) (v : Value) (x : String) :
    lookupField (setField r y v) x = if x = y then some v else lookupField r x := by
  unfold setField
  by_cases hy : hasKey r y = true
  · rw [if_pos hy]
    by_cases hxy : x = y
    · subst hxy
      simp [lookupField_overwriteField_self r x v hy]
    · simp [hxy, lookupField_overwriteField_ne r y v x hxy]
  · rw [if_neg hy]
    rw [lookupField_append]
    by_cases hxy : x = y
    · subst hxy
      rw [lookupField_none_of_hasKey_false r x (by simpa using hy)]
      simp [lookupField]
    · cases hlx : lookupField r x with
      | some w => simp [hxy]
      | none => simp [lookupField, hxy, Ne.symm]

theorem assignRow_cons (r src : Row) (pre a : String) (t : List String) :
    assignRow r (a :: t) src pre
      = assignRow (setField r (pre ++ a) (colOf src a)) t src pre := rfl

theorem lookupField_assignRow_notmem (ks : List String) (r src : Row) (pre x : String)
    (h : ∀ k ∈ ks, x ≠ pre ++ k) :
    lookupField (assignRow r ks src pre) x = lookupField r x := by
  induction ks generalizing r with
  | nil => rfl
  | cons a t ih =>
    rw [assignRow_cons]
    rw [ih _ (fun k hk => h k (List.mem_cons_of_mem a hk))]
    rw [lookupField_setField]
    exact if_neg (h a (List.mem_cons_self a t))

theorem lookupField_assignRow_mem (ks : List String) (r src : Row) (pre k : String)
    (hk : k ∈ ks) :
    lookupField (assignRow r ks src pre) (pre ++ k) = some (colOf src k) := by
  induction ks generalizing r with
  | nil => cases hk
  | cons a t ih =>
    rw [assignRow_cons]
    by_cases hmem : k ∈ t
    · exact ih _ hmem
    · have hka : k = a := by
        rcases List.mem_cons.mp hk with h1 | h1
        · exact h1
        · exact absurd h1 hmem
      subst hka
      rw [lookupField_assignRow_notmem t _ src pre _ ?hne]
      case hne =>
        intro k2 hk2 heq
        exact hmem (string_append_cancel pre k k2 heq ▸ hk2)
      rw [lookupField_setField]
      simp

theorem mem_unionKeys (l : List Row) (r : Row) (k : String)
    (hr : r ∈ l) (hk : k ∈ keysOf r) : k ∈ unionKeys l := by
  induction l with
  | nil => cases hr
  | cons a t ih =>
    rcases List.mem_cons.mp hr with h1 | h1
    · subst h1
      exact List.mem_append_left _ hk
    · exact List.mem_append_right _ (ih h1)

theorem lookupField_of_mem_nodup (r : Row) (k : String) (v : Value)
    (hnd : (keysOf r).Nodup) (hm : (k, v) ∈ r) : lookupField r k = some v := by
  induction r with
  | nil => cases hm
  | cons p r ih =>
    obtain ⟨k1, v1⟩ := p
    rcases List.mem_cons.mp hm with h1 | h1
    · rw [Prod.mk.injEq] at h1
      obtain ⟨hk1, hv1⟩ := h1
      simp [lookupField, hk1, hv1]
    · have hk1 : k1 ≠ k := by
        intro he
        subst he
        have : k1 ∈ keysOf r := by
          simpa [keysOf] using List.mem_map_of_mem Prod.fst h1
        simp [keysOf] at hnd
        exact hnd.1 v (by simpa using h1)
      have hnd2 : (keysOf r).Nodup := by
        simpa [keysOf] using hnd.of_cons
      simp [lookupField, hk1, ih hnd2 h1]

theorem mem_of_lookupField (r : Row) (k : String) (v : Value)
    (h : lookupField r k = some v) : (k, v) ∈ r := by
  induction r with
  | nil => simp [lookupField] at h
  | cons p r ih =>
    obtain ⟨k1, v1⟩ := p
    by_cases hk : k1 = k
    · subst hk
      have h2 : some v1 = some v := by simpa [lookupField] using h
      injection h2 with h3
      subst h3
      exact List.mem_cons_self _ _
    · simp only [lookupField, if_neg hk] at h
      exact List.mem_cons_of_mem _ (ih h)

theorem mem_zip_map {α β : Type} (f : α → β) (l : List α) (a : α) (b : β)
    (h : (a, b) ∈ l.zip (l.map f)) : a ∈ l ∧ b = f a := by
  induction l with
  | nil => cases h
  | cons x t ih =>
    rcases List.mem_cons.mp h with h1 | h1
    · rw [Prod.mk.injEq] at h1
      obtain ⟨ha, hb⟩ := h1
      subst ha
      exact ⟨List.mem_cons_self _ _, hb⟩
    · obtain ⟨hm, hb⟩ := ih h1
      exact ⟨List.mem_cons_of_mem _ hm, hb⟩

theorem append_ne_append_of_head (p q a b : String) (c d : Char) (tp tq : List Char)
    (hp : p.data = c :: tp) (hq : q.data = d :: tq) (hcd : c ≠ d) : p ++ a ≠ q ++ b := by
  intro h
  have hd := congrArg String.data h
  rw [String.data_append, String.data_append, hp, hq, List.cons_append,
    List.cons_append] at hd
  exact hcd (List.head_eq_of_cons_eq hd)

theorem psStep1_lookup_net (nk : List String) (r nf : Row) (k : String)
    (hnf : lookupField r "network" = some (.obj nf)) (hk : k ∈ nk) :
    lookupField (psStep1 nk r) ("network_" ++ k) = some (colOf nf k) := by
  unfold psStep1
  rw [lookupField_removeKey_ne _ _ _
    (Ne.symm (ne_append_of_short "network_" k "network" (by decide)))]
  have hobj : objFields (colOf r "network") = nf := by simp [colOf, hnf, objFields]
  rw [hobj]
  exact lookupField_assignRow_mem nk r nf "network_" k hk

theorem psStep1_lookup_network (nk : List String) (r : Row) :
    lookupField (psStep1 nk r) "network" = none := by
  unfold psStep1
  exact lookupField_removeKey_self _ _

theorem psStep1_lookup_orig (nk : List String) (r : Row) (x : String)
    (hxn : x ≠ "network") (hxp : ∀ s, x ≠ "network_" ++ s) :
    lookupField (psStep1 nk r) x = lookupField r x := by
  unfold psStep1
  rw [lookupField_removeKey_ne _ _ _ hxn]
  exact lookupField_assignRow_notmem _ _ _ _ _ (fun k _ => hxp k)

theorem psStep2_lookup_he (hks : List String) (r1 hf : Row) (k : String)
    (hhf : lookupField r1 "network_headend" = some (.obj hf)) (hk : k ∈ hks) :
    lookupField (psStep2 hks r1) ("headend_" ++ k) = some (colOf hf k) := by
  unfold psStep2
  rw [lookupField_removeKey_ne _ _ _
    (by
      rw [show ("network_headend" : String) = "network_" ++ "headend" from by decide]
      exact append_ne_append_of_head "headend_" "network_" k "headend" 'h' 'n' _ _
        rfl rfl (by decide))]
  have hobj : objFields (colOf r1 "network_headend") = hf := by
    simp [colOf, hhf, objFields]
  rw [hobj]
  exact lookupField_assignRow_mem hks r1 hf "headend_" k hk

theorem psStep2_lookup_other (hks : List String) (r1 : Row) (x : String)
    (hxnh : x ≠ "network_headend") (hxp : ∀ s, x ≠ "headend_" ++ s) :
    lookupField (psStep2 hks r1) x = lookupField r1 x := by
  unfold psStep2
  rw [lookupField_removeKey_ne _ _ _ hxnh]
  exact lookupField_assignRow_notmem _ _ _ _ _ (fun k _ => hxp k)

theorem psStep2_lookup_nh (hks : List String) (r1 : Row) :
    lookupField (psStep2 hks r1) "network_headend" = none := by
  unfold psStep2
  exact lookupField_removeKey_self _ _

/-- C6: on any list of records whose fields are uniquely named, each
holding a nested network object (itself possibly holding a nested headend
object), and whose other field names do not collide with the generated
prefixes, process_services keeps rows aligned with inputs and, row by
row: every network field k appears as network_k (except the headend
sub-object, which is itself flattened), every headend field k appears as
headend_k, the network and network_headend columns are gone, and every
other original field is unchanged. -/
theorem process_services_flattens
    (rs : List Row)
    (hwf : ∀ r ∈ rs, (keysOf r).Nodup)
    (hnet : ∀ r ∈ rs, ∃ nf, lookupField r "network" = some (.obj nf)
              ∧ (keysOf nf).Nodup
              ∧ ∀ hf, lookupField nf "headend" = some (.obj hf) → (keysOf hf).Nodup)
    (hpre : ∀ r ∈ rs, ∀ p ∈ r, p.1 ≠ "network" →
              (∀ s, p.1 ≠ "network_" ++ s) ∧ (∀ s, p.1 ≠ "headend_" ++ s))
    (r out : Row) (hmem : (r, out) ∈ rs.zip (process_services rs))
    (nf : Row) (hnf : lookupField r "network" = some (.obj nf)) :
    (∀ k v, (k, v) ∈ nf → k ≠ "headend" → lookupField out ("network_" ++ k) = some v)
    ∧ lookupField out "network" = none
    ∧ lookupField out "network_headend" = none
    ∧ (∀ hf, lookupField nf "headend" = some (.obj hf) →
        ∀ k v, (k, v) ∈ hf → lookupField out ("headend_" ++ k) = some v)
    ∧ (∀ k v, (k, v) ∈ r → k ≠ "network" → lookupField out k = some v) := by
  by_cases hcond :
      (rs.map (psStep1 (netKeysOf rs))).any (fun row => hasKey row "network_headend") = true
  case pos =>
    have hps : process_services rs
        = rs.map (fun row => psStep2 (heKeysOf rs) (psStep1 (netKeysOf rs) row)) := by
      unfold process_services
      rw [if_pos hcond, List.map_map]
      rfl
    rw [hps] at hmem
    obtain ⟨hrin, hout⟩ := mem_zip_map _ rs r out hmem
    obtain ⟨nf2, hnf2, hnd_nf, hnd_hf⟩ := hnet r hrin
    have hx := hnf2.symm.trans hnf
    injection hx with hx2
    injection hx2 with hx3
    rw [hx3] at hnd_nf hnd_hf
    have hknf : ∀ k, k ∈ keysOf nf → k ∈ netKeysOf rs := by
      intro k hk
      unfold netKeysOf
      exact mem_unionKeys (rs.map (fun row => objFields (colOf row "network")))
        (objFields (colOf r "network")) k
        (List.mem_map_of_mem (fun row => objFields (colOf row "network")) hrin)
        (by simpa [colOf, hnf, objFields] using hk)
    have hr1net : ∀ k v, (k, v) ∈ nf →
        lookupField (psStep1 (netKeysOf rs) r) ("network_" ++ k) = some v := by
      intro k v hkv
      have hkk : k ∈ keysOf nf := by
        unfold keysOf
        exact List.mem_map_of_mem Prod.fst hkv
      have hcv : colOf nf k = v := by
        unfold colOf
        rw [lookupField_of_mem_nodup nf k v hnd_nf hkv]
        rfl
      rw [psStep1_lookup_net _ r nf k hnf (hknf k hkk), hcv]
    refine ⟨?_, ?_, ?_, ?_, ?_⟩
    · intro k v hkv hkhe
      have hne1 : ("network_" ++ k) ≠ "network_headend" := by
        rw [show ("network_headend" : String) = "network_" ++ "headend" from by decide]
        intro he
        exact hkhe (string_append_cancel _ _ _ he)
      have hne2 : ∀ s, ("network_" ++ k) ≠ "headend_" ++ s := fun s =>
        append_ne_append_of_head "network_" "headend_" k s 'n' 'h' _ _ rfl rfl (by decide)
      rw [hout, psStep2_lookup_other _ _ _ hne1 hne2]
      exact hr1net k v hkv
    · have hnb2 : ∀ s, ("network" : String) ≠ "headend_" ++ s := fun s =>
        (append_ne_of_head "headend_" "network" s 'h' 'n' _ _ rfl rfl (by decide)).symm
      rw [hout, psStep2_lookup_other _ _ _ (by decide) hnb2]
      exact psStep1_lookup_network _ _
    · rw [hout]
      exact psStep2_lookup_nh _ _
    · intro hf hhf k v hkv
      have hhe_mem : "headend" ∈ keysOf nf := by
        unfold keysOf
        exact List.mem_map_of_mem Prod.fst (mem_of_lookupField nf "headend" (.obj hf) hhf)
      have hr1he : lookupField (psStep1 (netKeysOf rs) r) "network_headend"
          = some (.obj hf) := by
        rw [show ("network_headend" : String) = "network_" ++ "headend" from by decide]
        rw [psStep1_lookup_net _ r nf "headend" hnf (hknf _ hhe_mem)]
        unfold colOf
        rw [hhf]
        rfl
      have hkhf : k ∈ heKeysOf rs := by
        unfold heKeysOf
        have hco : colOf (psStep1 (netKeysOf rs) r) "network_headend" = .obj hf := by
          unfold colOf
          rw [hr1he]
          rfl
        refine mem_unionKeys
          ((rs.map (psStep1 (netKeysOf rs))).map
            (fun row => objFields (colOf row "network_headend")))
          (objFields (colOf (psStep1 (netKeysOf rs) r) "network_headend")) k
          (List.mem_map_of_mem (fun row => objFields (colOf row "network_headend"))
            (List.mem_map_of_mem (psStep1 (netKeysOf rs)) hrin)) ?_
        rw [hco]
        unfold objFields keysOf
        exact List.mem_map_of_mem Prod.fst hkv
      have hcv : colOf hf k = v := by
        unfold colOf
        rw [lookupField_of_mem_nodup hf k v (hnd_hf hf hhf) hkv]
        rfl
      rw [hout, psStep2_lookup_he _ _ hf k hr1he hkhf, hcv]
    · intro k v hkv hkne
      have hp := hpre r hrin (k, v) hkv hkne
      have hknh : k ≠ "network_headend" := by
        rw [show ("network_headend" : String) = "network_" ++ "headend" from by decide]
        exact hp.1 "headend"
      rw [hout, psStep2_lookup_other _ _ _ hknh hp.2,
        psStep1_lookup_orig _ _ _ hkne hp.1]
      exact lookupField_of_mem_nodup r k v (hwf r hrin) hkv
  case neg =>
    have hps : process_services rs = rs.map (psStep1 (netKeysOf rs)) := by
      unfold process_services
      rw [if_neg hcond]
    rw [hps] at hmem
    obtain ⟨hrin, hout⟩ := mem_zip_map _ rs r out hmem
    obtain ⟨nf2, hnf2, hnd_nf, hnd_hf⟩ := hnet r hrin
    have hx := hnf2.symm.trans hnf
    injection hx with hx2
    injection hx2 with hx3
    rw [hx3] at hnd_nf hnd_hf
    have hknf : ∀ k, k ∈ keysOf nf → k ∈ netKeysOf rs := by
      intro k hk
      unfold netKeysOf
      exact mem_unionKeys (rs.map (fun row => objFields (colOf row "network")))
        (objFields (colOf r "network")) k
        (List.mem_map_of_mem (fun row => objFields (colOf row "network")) hrin)
        (by simpa [colOf, hnf, objFields] using hk)
    have hr1net : ∀ k v, (k, v) ∈ nf →
        lookupField (psStep1 (netKeysOf rs) r) ("network_" ++ k) = some v := by
      intro k v hkv
      have hkk : k ∈ keysOf nf := by
        unfold keysOf
        exact List.mem_map_of_mem Prod.fst hkv
      have hcv : colOf nf k = v := by
        unfold colOf
        rw [lookupField_of_mem_nodup nf k v hnd_nf hkv]
        rfl
      rw [psStep1_lookup_net _ r nf k hnf (hknf k hkk), hcv]
    have hanyf : (rs.map (psStep1 (netKeysOf rs))).any
        (fun row => hasKey row "network_headend") = false := by
      revert hcond
      cases (rs.map (psStep1 (netKeysOf rs))).any (fun row => hasKey row "network_headend")
      · intro _
        rfl
      · intro hc
        exact absurd rfl hc
    refine ⟨?_, ?_, ?_, ?_, ?_⟩
    · intro k v hkv _
      rw [hout]
      exact hr1net k v hkv
    · rw [hout]
      exact psStep1_lookup_network _ _
    · have hkf : hasKey (psStep1 (netKeysOf rs) r) "network_headend" = false := by
        have hall := List.any_eq_false.mp hanyf
        have := hall (psStep1 (netKeysOf rs) r) (List.mem_map_of_mem _ hrin)
        revert this
        cases hasKey (psStep1 (netKeysOf rs) r) "network_headend"
        · intro _
          rfl
        · intro hc
          exact absurd rfl hc
      rw [hout]
      exact lookupField_none_of_hasKey_false _ _ hkf
    · intro hf hhf k v hkv
      have hhe_mem : "headend" ∈ keysOf nf := by
        unfold keysOf
        exact List.mem_map_of_mem Prod.fst (mem_of_lookupField nf "headend" (.obj hf) hhf)
      have hr1he : lookupField (psStep1 (netKeysOf rs) r) "network_headend"
          = some (.obj hf) := by
        rw [show ("network_headend" : String) = "network_" ++ "headend" from by decide]
        rw [psStep1_lookup_net _ r nf "headend" hnf (hknf _ hhe_mem)]
        unfold colOf
        rw [hhf]
        rfl
      have hky := hasKey_of_lookupField _ _ _ hr1he
      have : (rs.map (psStep1 (netKeysOf rs))).any
          (fun row => hasKey row "network_headend") = true :=
        List.any_eq_true.mpr ⟨_, List.mem_map_of_mem _ hrin, hky⟩
      exact absurd this hcond
    · intro k v hkv hkne
      have hp := hpre r hrin (k, v) hkv hkne
      rw [hout, psStep1_lookup_orig _ _ _ hkne hp.1]
      exact lookupField_of_mem_nodup r k v (hwf r hrin) hkv

/-- The nested record of spec section 8, with a sibling field kept. -/
def svcRow : Row :=
  [("id", .nat 1),
   ("network", .obj [("speed", .str "100M"), ("headend", .obj [("name", .str "x")])]),
   ("other", .nat 2)]

/-- The flat record that process_services produces from svcRow. -/
def svcOut : Row :=
  [("id", .nat 1), ("other", .nat 2), ("network_speed", .str "100M"),
   ("headend_name", .str "x")]

/-- Concrete run of the C6 theorem on the section 8 record: the network
and headend fields surface with their prefixes, the nested columns are
gone, and the sibling fields survive. -/
theorem process_services_flattens_witness :
    lookupField svcOut ("network_" ++ "speed") = some (.str "100M")
    ∧ lookupField svcOut "network" = none
    ∧ lookupField svcOut "network_headend" = none
    ∧ lookupField svcOut ("headend_" ++ "name") = some (.str "x")
    ∧ lookupField svcOut "id" = some (.nat 1) := by
  have H := process_services_flattens [svcRow]
    (by
      intro r hr
      rw [List.mem_singleton] at hr
      subst hr
      decide)
    (by
      intro r hr
      rw [List.mem_singleton] at hr
      subst hr
      refine ⟨[("speed", .str "100M"), ("headend", .obj [("name", .str "x")])],
        rfl, by decide, ?_⟩
      intro hf hhf
      have h2 : (some (Value.obj [("name", Value.str "x")]) : Option Value)
          = some (.obj hf) := hhf
      injection h2 with h3
      injection h3 with h4
      rw [← h4]
      decide)
    (by
      intro r hr p hp hne
      rw [List.mem_singleton] at hr
      subst hr
      rcases List.mem_cons.mp hp with h1 | hp1
      · subst h1
        exact ⟨fun s => ne_append_of_short "network_" s "id" (by decide),
               fun s => ne_append_of_short "headend_" s "id" (by decide)⟩
      · rcases List.mem_cons.mp hp1 with h2 | hp2
        · subst h2
          exact absurd rfl hne
        · rcases List.mem_cons.mp hp2 with h3 | hp3
          · subst h3
            exact ⟨fun s => ne_append_of_short "network_" s "other" (by decide),
                   fun s => ne_append_of_short "headend_" s "other" (by decide)⟩
          · cases hp3)
    svcRow svcOut (List.Mem.head _)
    [("speed", .str "100M"), ("headend", .obj [("name", .str "x")])] rfl
  refine ⟨H.1 "speed" (.str "100M") (List.Mem.head _) (by decide), H.2.1, H.2.2.1,
    ?_, H.2.2.2.2 "id" (.nat 1) (List.Mem.head _) (by decide)⟩
  exact H.2.2.2.1 [("name", .str "x")] rfl "name" (.str "x") (List.Mem.head _)

/-! Lemmas for the tag aggregation and lookup claims. -/

theorem goTags_of_perTagResults (env : Env) (tags : List String) :
    ∀ (st : CarbonState) (uc : Bool) (ma now : Nat) (st2 : CarbonState)
      (L : List (Option (List Row))),
    perTagResults env st tags uc ma now = .ok (st2, L) →
    goTags env st tags uc ma now = .ok (st2, (L.map (fun o => o.getD [])).flatten) := by
  induction tags with
  | nil =>
    intro st uc ma now st2 L hP
    unfold perTagResults at hP
    injection hP with h
    rw [Prod.mk.injEq] at h
    obtain ⟨h1, h2⟩ := h
    subst h1
    subst h2
    unfold goTags
    rfl
  | cons t ts ih =>
    intro st uc ma now st2 L hP
    unfold perTagResults at hP
    unfold goTags
    cases hgt : get_services_by_tag env st t uc ma now with
    | error e =>
      simp only [hgt] at hP
      cases hP
    | ok res =>
      obtain ⟨st1, r1, b⟩ := res
      simp only [hgt] at hP
      cases hpr : perTagResults env st1 ts uc ma now with
      | error e =>
        simp only [hpr] at hP
        cases hP
      | ok p =>
        obtain ⟨stx, Lx⟩ := p
        simp only [hpr] at hP
        injection hP with h
        rw [Prod.mk.injEq] at h
        obtain ⟨h1, h2⟩ := h
        subst h1
        subst h2
        simp only [hgt]
        rw [ih st1 uc ma now stx Lx hpr]
        cases r1 <;> simp

/-- C7: on a cache miss for the joined tags key, get_services_by_tags
equals the ordered concatenation of the per-tag get_services_by_tag
results (state threaded left to right, a None result contributing
nothing, duplicates across tags kept); the concatenation is cached under
the joined key exactly when it is non-empty, and an empty concatenation
stores nothing and yields None. -/
theorem get_services_by_tags_concat
    (env : Env) (st : CarbonState) (tags : List String) (T now : Nat)
    (st2 : CarbonState) (L : List (Option (List Row)))
    (hmiss : asTable (cache_get st.cache
        ("services_tags_" ++ String.intercalate "_" tags) none (some T) now) = none)
    (hP : perTagResults env st tags true T now = .ok (st2, L)) :
    get_services_by_tags env st tags true T now =
      (if ((L.map (fun o => o.getD [])).flatten).length ≠ 0 then
        .ok ({ st2 with
                 cache := cache_store st2.cache
                   ("services_tags_" ++ String.intercalate "_" tags)
                   (some (.table ((L.map (fun o => o.getD [])).flatten))) now },
              some ((L.map (fun o => o.getD [])).flatten))
      else .ok (st2, none)) := by
  have hgo := goTags_of_perTagResults env tags st true T now st2 L hP
  simp only [get_services_by_tags]
  rw [hmiss, hgo]

/-- Remote environment used by the tag claims: tag a has one service, any
other tag filter returns zero rows. -/
def envTags : Env :=
  { loginResponse := respHeld, servicesStatus := 200, servicesReason := "",
    servicesData := [],
    tagStatus := fun _ => 200, tagReason := fun _ => "",
    tagData := fun t => if t = "a" then [[("network", .obj [("x", .str "1")])]] else [] }

/-- A logged-in client with an empty cache. -/
def stTags : CarbonState :=
  { cache := [], login_response := some respHeld, login_expiry := 100 }

/-- Concrete run of the C7 theorem: one tag, one fetched row; the
aggregate is the per-tag table and is cached under the joined key. -/
theorem get_services_by_tags_concat_witness :
    asTable (cache_get stTags.cache
        ("services_tags_" ++ String.intercalate "_" ["a"]) none (some 300) 50) = none
    ∧ perTagResults envTags stTags ["a"] true 300 50
        = .ok ({ cache := [("services_tag_a", ⟨50, some (.table [[("network_x", .str "1")]])⟩)],
                 login_response := some respHeld, login_expiry := 100 },
               [some [[("network_x", .str "1")]]])
    ∧ get_services_by_tags envTags stTags ["a"] true 300 50
        = .ok ({ cache := [("services_tag_a", ⟨50, some (.table [[("network_x", .str "1")]])⟩),
                           ("services_tags_a", ⟨50, some (.table [[("network_x", .str "1")]])⟩)],
                 login_response := some respHeld, login_expiry := 100 },
               some [[("network_x", .str "1")]]) :=
  ⟨rfl, rfl,
    get_services_by_tags_concat envTags stTags ["a"] 300 50
      { cache := [("services_tag_a", ⟨50, some (.table [[("network_x", .str "1")]])⟩)],
        login_response := some respHeld, login_expiry := 100 }
      [some [[("network_x", .str "1")]]] rfl rfl⟩

/-- C8: when the per-tag fetch is actually performed (cache miss), the
session is already authenticated, and the server returns zero rows for
the tag, get_services_by_tag returns None having fetched (the Bool is
true) and the state, cache included, is exactly the input state: nothing
is stored under the tag key, so the identical call repeated from the
returned state fetches again instead of serving a cached empty table. -/
theorem get_services_by_tag_empty_not_cached
    (env : Env) (st : CarbonState) (tag : String) (T now : Nat) (r : Response)
    (hlog : st.login_response = some r)
    (hmiss : asTable (cache_get st.cache ("services_tag_" ++ tag) none (some T) now) = none)
    (hstatus : env.tagStatus tag = 200)
    (hdata : env.tagData tag = []) :
    get_services_by_tag env st tag true T now = .ok (st, none, true) := by
  have hrl : runLogin env st now = .ok st := by
    unfold runLogin do_login
    rw [hlog]
    simp
  simp only [get_services_by_tag]
  rw [hmiss, hrl, hstatus, hdata]
  simp

/-- Concrete run of the C8 theorem: tag b returns zero rows; the call
fetches, returns None, and leaves the state untouched. -/
theorem get_services_by_tag_empty_witness :
    stTags.login_response = some respHeld
    ∧ asTable (cache_get stTags.cache ("services_tag_" ++ "b") none (some 300) 50) = none
    ∧ envTags.tagStatus "b" = 200
    ∧ envTags.tagData "b" = []
    ∧ get_services_by_tag envTags stTags "b" true 300 50 = .ok (stTags, none, true) :=
  ⟨rfl, rfl, rfl, rfl,
    get_services_by_tag_empty_not_cached envTags stTags "b" 300 50 respHeld rfl rfl rfl rfl⟩

theorem filter_first {α : Type} (p : α → Bool) :
    ∀ (l : List α) (r : α), r ∈ l → p r = true →
    ∃ r0 pre post, l = pre ++ r0 :: post ∧ p r0 = true ∧ (∀ x ∈ pre, p x = false)
      ∧ l.filter p = r0 :: post.filter p := by
  intro l
  induction l with
  | nil =>
    intro r hr
    cases hr
  | cons a t ih =>
    intro r hr hp
    by_cases hpa : p a = true
    · refine ⟨a, [], t, rfl, hpa, ?_, ?_⟩
      · intro x hx
        cases hx
      · simp [List.filter_cons_of_pos hpa]
    · have hpaf : p a = false := by
        cases h : p a
        · rfl
        · exact absurd h hpa
      have hra : r ≠ a := fun he => hpa (he ▸ hp)
      have hrt : r ∈ t := by
        rcases List.mem_cons.mp hr with h | h
        · exact absurd h hra
        · exact h
      obtain ⟨r0, pre, post, hsplit, hp0, hpre, hfil⟩ := ih r hrt hp
      refine ⟨r0, a :: pre, post, ?_, hp0, ?_, ?_⟩
      · rw [List.cons_append, hsplit]
      · intro x hx
        rcases List.mem_cons.mp hx with h | h
        · rw [h]
          exact hpaf
        · exact hpre x h
      · rw [List.filter_cons_of_neg (by simp [hpaf]), hfil]

theorem get_all_services_hit (env : Env) (st : CarbonState) (ma now : Nat)
    (tbl : List Row)
    (hcache : cache_get st.cache "services" none (some ma) now = some (.table tbl)) :
    get_all_services env st true ma now = .ok (st, tbl) := by
  simp only [get_all_services]
  rw [hcache]
  rfl

/-- C9: with the full services table served from cache, the two secondary
lookups match rows by comparing the upper-cased stored attribute with the
upper-cased query (exact equality after case folding, rows without a
string value never matching); when no row matches they fail with the
lookup error, and when at least one row matches the returned record is
the first match in table order. -/
theorem secondary_lookup_first_case_insensitive
    (env : Env) (st : CarbonState) (q : String) (tbl : List Row) (now : Nat)
    (hcache : cache_get st.cache "services" none (some 300) now = some (.table tbl)) :
    ((∀ r2 ∈ tbl, upperMatch "service_identifier" q r2 = false) →
        get_service_by_avc env st q true now = .error .indexError)
    ∧ (∀ r2 ∈ tbl, upperMatch "service_identifier" q r2 = true →
        ∃ r0 pre post, get_service_by_avc env st q true now = .ok r0
          ∧ tbl = pre ++ r0 :: post ∧ upperMatch "service_identifier" q r0 = true
          ∧ ∀ x ∈ pre, upperMatch "service_identifier" q x = false)
    ∧ (∀ r2 s, lookupField r2 "service_identifier" = some (.str s) →
        (upperMatch "service_identifier" q r2 = true ↔ upperStr s = upperStr q))
    ∧ ((∀ r2 ∈ tbl, upperMatch "location_id" q r2 = false) →
        get_service_by_loc_id env st q true now = .error .indexError)
    ∧ (∀ r2 ∈ tbl, upperMatch "location_id" q r2 = true →
        ∃ r0 pre post, get_service_by_loc_id env st q true now = .ok r0
          ∧ tbl = pre ++ r0 :: post ∧ upperMatch "location_id" q r0 = true
          ∧ ∀ x ∈ pre, upperMatch "location_id" q x = false)
    ∧ (∀ r2 s, lookupField r2 "location_id" = some (.str s) →
        (upperMatch "location_id" q r2 = true ↔ upperStr s = upperStr q)) := by
  have hall := get_all_services_hit env st 300 now tbl hcache
  refine ⟨?_, ?_, ?_, ?_, ?_, ?_⟩
  · intro hnone
    simp only [get_service_by_avc, hall]
    rw [List.filter_eq_nil_iff.mpr (by
      intro a ha
      rw [hnone a ha]
      simp)]
  · intro r2 hr2 hp
    obtain ⟨r0, pre, post, hsplit, hp0, hpre, hfil⟩ :=
      filter_first (upperMatch "service_identifier" q) tbl r2 hr2 hp
    refine ⟨r0, pre, post, ?_, hsplit, hp0, hpre⟩
    simp only [get_service_by_avc, hall]
    rw [hfil]
  · intro r2 s hs
    unfold upperMatch
    rw [hs]
    exact beq_iff_eq
  · intro hnone
    simp only [get_service_by_loc_id, hall]
    rw [List.filter_eq_nil_iff.mpr (by
      intro a ha
      rw [hnone a ha]
      simp)]
  · intro r2 hr2 hp
    obtain ⟨r0, pre, post, hsplit, hp0, hpre, hfil⟩ :=
      filter_first (upperMatch "location_id" q) tbl r2 hr2 hp
    refine ⟨r0, pre, post, ?_, hsplit, hp0, hpre⟩
    simp only [get_service_by_loc_id, hall]
    rw [hfil]
  · intro r2 s hs
    unfold upperMatch
    rw [hs]
    exact beq_iff_eq

/-- A client whose cache already holds a fresh services table with one
row, and a valid login expiry marker. -/
def stLookup : CarbonState :=
  { cache := [("services", ⟨0, some (.table
        [[("service_identifier", .str "ABC123"), ("location_id", .str "LOC1")]])⟩),
      ("login_expiry", ⟨0, some (.num 50)⟩)],
    login_response := none, login_expiry := 0 }

/-- Concrete run of the C9 theorem: the lower-cased query abc123 matches
the stored upper-cased ABC123 and the first (only) row is returned, while
a query matching nothing fails with the lookup error. -/
theorem secondary_lookup_witness :
    get_service_by_avc envTags stLookup "abc123" true 10
      = .ok [("service_identifier", .str "ABC123"), ("location_id", .str "LOC1")]
    ∧ get_service_by_loc_id envTags stLookup "nope" true 10 = .error .indexError := by
  have H := secondary_lookup_first_case_insensitive envTags stLookup "abc123"
    [[("service_identifier", .str "ABC123"), ("location_id", .str "LOC1")]] 10 rfl
  have H2 := secondary_lookup_first_case_insensitive envTags stLookup "nope"
    [[("service_identifier", .str "ABC123"), ("location_id", .str "LOC1")]] 10 rfl
  constructor
  · obtain ⟨r0, pre, post, hok, hsplit, hp0, hpre⟩ :=
      H.2.1 [("service_identifier", .str "ABC123"), ("location_id", .str "LOC1")]
        (List.Mem.head _) (by decide)
    rcases pre with _ | ⟨a, pre2⟩
    · simp only [List.nil_append] at hsplit
      injection hsplit with h1 h2
      rw [hok, ← h1]
    · simp only [List.cons_append] at hsplit
      injection hsplit with h1 h2
      exact absurd h2.symm (by simp)
  · exact H2.2.2.2.1 (by decide)
